import Mathlib

/-!
Shallow embedding of `iceutils/sim/models.py`: the two 1-D ice-stream
stress-balance models (`IceStream`, unconfined; `LateralIceStream`, laterally
confined) that compute a residual vector of length `N + 2` and an analytic
Jacobian of shape `(N + 2) × N` for a Newton-type solver.

Modelling choices:
- numpy float arrays become functions `ℕ → ℝ` (length-`N` information is kept
  in the `Profile.N` field; index arithmetic is explicit);
- the numpy power `x ** p` with real operands becomes `Real.rpow` (written
  `x ^ p`); the one floating-point special value a claim depends on,
  `0.0 ** p = +inf` for `p < 0`, is modelled separately by the
  `EReal`-valued `npPow`;
- the preallocated buffers `self.F` and `self.J` and the `copy`-on-return
  contract are modelled by an explicit reference heap (`VecHeap`, `MatHeap`):
  an array object is a reference `ℕ` into the heap, allocation takes the
  next fresh reference.
-/

/-- Grid/geometry collaborator: the profile object consumed by both models.
`D` is the `N × N` spatial-derivative operator, `h`, `alpha`, `depth` the
per-node fields. -/
structure Profile where
  N : ℕ
  D : ℕ → ℕ → ℝ
  h : ℕ → ℝ
  alpha : ℕ → ℝ
  depth : ℕ → ℝ
  rho_ice : ℝ
  rho_water : ℝ

/-- Matrix–vector product `np.dot(D, u)` for an `N × N` matrix. -/
noncomputable def matVec (N : ℕ) (D : ℕ → ℕ → ℝ) (u : ℕ → ℝ) : ℕ → ℝ :=
  fun i => ∑ j ∈ Finset.range N, D i j * u j

/-- Matrix–matrix product `np.dot(A, B)` for `N × N` matrices. -/
noncomputable def matMul (N : ℕ) (A B : ℕ → ℕ → ℝ) : ℕ → ℕ → ℝ :=
  fun i j => ∑ k ∈ Finset.range N, A i k * B k j

/-- The shared helper `gradient_product(b, A) = np.einsum('ij,i->ij', A, b)`:
row `i` of `A` scaled by `b i`. -/
noncomputable def gradient_product (b : ℕ → ℝ) (A : ℕ → ℕ → ℝ) : ℕ → ℕ → ℝ :=
  fun i j => A i j * b i

/-- Embedding of `np.copysign(1.0, u)` on reals (ℝ has no negative zero, so
zero gets sign `+1`). -/
noncomputable def usign (x : ℝ) : ℝ := if x < 0 then -1 else 1

/-- Float-semantics model of the numpy power for a nonnegative base: numpy
evaluates `0.0 ** p` as `+inf` when `p < 0`, as `1.0` when `p = 0`, and as
`0.0` when `p > 0`; a positive base gives the ordinary real power. -/
noncomputable def npPow (x p : ℝ) : EReal :=
  if x = 0 then (if p < 0 then ⊤ else if p = 0 then 1 else 0)
  else ((x ^ p : ℝ) : EReal)

/-- Reference heap of vector-valued arrays: `data r` is the contents of the
array object with reference `r`; references `≥ next` are unallocated. -/
structure VecHeap where
  next : ℕ
  data : ℕ → ℕ → ℝ

/-- Reference heap of matrix-valued arrays. -/
structure MatHeap where
  next : ℕ
  data : ℕ → ℕ → ℕ → ℝ

/-- State of an `IceStream` (unconfined) model instance, mirroring the fields
set in `IceStream.__init__`. -/
structure IceStream where
  profile : Profile
  A : ℝ
  g : ℝ
  B2 : ℝ
  n : ℝ
  m : ℝ
  rho_ice : ℝ
  rho_water : ℝ
  boundary_value_scale : ℝ
  nu_eps : ℝ
  fs : ℝ
  K : ℕ → ℕ → ℝ

/-- `IceStream.__init__(profile, calving_force, A, B2, n, m)`. -/
noncomputable def IceStream.init (profile : Profile) (calving_force A B2 n m : ℝ) :
    IceStream :=
  { profile := profile
    A := A
    g := 9.80665
    B2 := B2
    n := n
    m := m
    rho_ice := profile.rho_ice
    rho_water := profile.rho_water
    boundary_value_scale := 500.0
    nu_eps := 1.0e-8
    fs := calving_force
    K := fun i j => 2.0 * profile.D i j * A ^ (-1 / n) }

namespace IceStream

/-- Velocity gradient `Du = np.dot(D, u)`. -/
noncomputable def Du (s : IceStream) (u : ℕ → ℝ) : ℕ → ℝ :=
  matVec s.profile.N s.profile.D u

/-- Dynamic viscosity `nu = A**(-1/n) / (np.abs(Du)**((n-1)/n) + nu_eps)`. -/
noncomputable def nu (s : IceStream) (u : ℕ → ℝ) : ℕ → ℝ :=
  fun i => s.A ^ (-1 / s.n) / (|s.Du u i| ^ ((s.n - 1) / s.n) + s.nu_eps)

/-- Membrane stress `scale * 2.0 * np.dot(D, h * nu * Du)`. -/
noncomputable def membrane (s : IceStream) (u : ℕ → ℝ) (scale : ℝ) : ℕ → ℝ :=
  fun i => scale * 2.0 *
    matVec s.profile.N s.profile.D (fun j => s.profile.h j * s.nu u j * s.Du u j) i

/-- Basal drag `scale * B2 * u`. -/
noncomputable def drag (s : IceStream) (u : ℕ → ℝ) (scale : ℝ) : ℕ → ℝ :=
  fun i => scale * s.B2 * u i

/-- Driving stress `scale * rho_ice * g * h * alpha`. -/
noncomputable def Td (s : IceStream) (scale : ℝ) : ℕ → ℝ :=
  fun i => scale * s.rho_ice * s.g * s.profile.h i * s.profile.alpha i

/-- Contents of the PDE vector `self.F` after `compute_pde_values(u, scale)`:
interior entries `membrane - drag + Td`, then the two boundary entries.
Entries beyond `N + 1` do not exist in the length-`N + 2` buffer and keep the
preallocated value `0`. -/
noncomputable def Fvec (s : IceStream) (u : ℕ → ℝ) (scale : ℝ) : ℕ → ℝ :=
  fun i =>
    if i < s.profile.N then s.membrane u scale i - s.drag u scale i + s.Td scale i
    else if i = s.profile.N then s.boundary_value_scale * s.Du u 0
    else if i = s.profile.N + 1 then s.boundary_value_scale * (s.Du u (s.profile.N - 1) - s.fs)
    else 0

/-- `compute_pde_values(u, scale)` with the buffer heap made explicit: the
instance's buffer `self.F` (reference `fid`) is overwritten with the new
values, and `self.F.copy()` allocates a fresh array with the same contents,
whose reference is returned. -/
noncomputable def compute_pde_values (s : IceStream) (fid : ℕ) (hp : VecHeap)
    (u : ℕ → ℝ) (scale : ℝ) : ℕ × VecHeap :=
  let F := s.Fvec u scale
  (hp.next,
   { next := hp.next + 1
     data := fun r => if r = fid then F else if r = hp.next then F else hp.data r })

/-- Contents of the Jacobian buffer `self.J` after `compute_jacobian(u, scale)`:
the membrane-stress rows minus the diagonal drag Jacobian, then the two
boundary rows `boundary_value_scale * D[0,:]` and
`boundary_value_scale * D[-1,:]`. -/
noncomputable def Jmat (s : IceStream) (u : ℕ → ℝ) (scale : ℝ) : ℕ → ℕ → ℝ :=
  let N := s.profile.N
  let D := s.profile.D
  let h := s.profile.h
  let Du := s.Du u
  let nuJ : ℕ → ℝ := fun i => 1.0 / (|Du i| ^ ((s.n - 1) / s.n) + s.nu_eps)
  let nu_hat : ℕ → ℝ :=
    fun i => (s.n - 1) / s.n * Du i / (|Du i| ^ ((s.n + 1) / s.n) + s.nu_eps)
  let Gp := gradient_product (fun i => -1.0 * nuJ i ^ (2 : ℕ) * nu_hat i) D
  let J1 := gradient_product (fun i => h i * Du i) Gp
  let J2 := gradient_product (fun i => h i * nuJ i) D
  let J_membrane : ℕ → ℕ → ℝ :=
    fun i j => scale * matMul N s.K (fun a b => J1 a b + J2 a b) i j
  let J_drag : ℕ → ℕ → ℝ := fun i j => scale * s.B2 * (if i = j then 1 else 0)
  fun i j =>
    if i < N then J_membrane i j - J_drag i j
    else if i = N then s.boundary_value_scale * D 0 j
    else if i = N + 1 then s.boundary_value_scale * D (N - 1) j
    else 0

/-- `compute_jacobian(u, scale)` with the buffer heap made explicit: the
instance's buffer `self.J` (reference `jid`) is overwritten in place and then
returned by direct reference, with no copy and no fresh allocation. -/
noncomputable def compute_jacobian (s : IceStream) (jid : ℕ) (mh : MatHeap)
    (u : ℕ → ℝ) (scale : ℝ) : ℕ × MatHeap :=
  let J := s.Jmat u scale
  (jid, { next := mh.next, data := fun r => if r = jid then J else mh.data r })

end IceStream

/-- State of a `LateralIceStream` (laterally confined) model instance,
mirroring the fields set in `LateralIceStream.__init__`. -/
structure LateralIceStream where
  profile : Profile
  W : ℝ
  A : ℝ
  g : ℝ
  As : ℝ
  mu : ℝ
  n : ℝ
  m : ℝ
  rho_ice : ℝ
  rho_water : ℝ
  boundary_value_scale : ℝ
  nu_eps : ℝ
  drag_eps : ℝ
  fs : ℝ
  Hf : ℕ → ℝ
  K : ℕ → ℕ → ℝ

/-- `LateralIceStream.__init__(profile, calving_force, A, W, As, mu, n, m)`.
The effective flotation height is
`Hf = profile.h - rho_water / rho_ice * profile.depth` followed by the
element-wise floor `Hf[Hf < 0.01] = 0.01`. -/
noncomputable def LateralIceStream.init (profile : Profile)
    (calving_force A W As mu n m : ℝ) : LateralIceStream :=
  { profile := profile
    W := W
    A := A
    g := 9.80665
    As := As
    mu := mu
    n := n
    m := m
    rho_ice := profile.rho_ice
    rho_water := profile.rho_water
    boundary_value_scale := 500.0
    nu_eps := 1.0e-8
    drag_eps := 1.0e-3
    fs := calving_force
    Hf := fun i =>
      if profile.h i - profile.rho_water / profile.rho_ice * profile.depth i < 0.01
      then 0.01
      else profile.h i - profile.rho_water / profile.rho_ice * profile.depth i
    K := fun i j => 2.0 * profile.D i j * A ^ (-1 / n) }

namespace LateralIceStream

/-- Velocity gradient `Du = np.dot(D, u)`. -/
noncomputable def Du (s : LateralIceStream) (u : ℕ → ℝ) : ℕ → ℝ :=
  matVec s.profile.N s.profile.D u

/-- Dynamic viscosity `nu = A**(-1/n) / (np.abs(Du)**((n-1)/n) + nu_eps)`. -/
noncomputable def nu (s : LateralIceStream) (u : ℕ → ℝ) : ℕ → ℝ :=
  fun i => s.A ^ (-1 / s.n) / (|s.Du u i| ^ ((s.n - 1) / s.n) + s.nu_eps)

/-- Membrane stress `scale * 2.0 * np.dot(D, h * nu * Du)`. -/
noncomputable def membrane (s : LateralIceStream) (u : ℕ → ℝ) (scale : ℝ) : ℕ → ℝ :=
  fun i => scale * 2.0 *
    matVec s.profile.N s.profile.D (fun j => s.profile.h j * s.nu u j * s.Du u j) i

/-- Basal drag `scale * usign * mu * As * (Hf * absu)**(1/m)` with
`absu = np.abs(u)` and `usign = np.copysign(1, u)`. -/
noncomputable def basal_drag (s : LateralIceStream) (u : ℕ → ℝ) (scale : ℝ) : ℕ → ℝ :=
  fun i => scale * usign (u i) * s.mu * s.As * (s.Hf i * |u i|) ^ (1 / s.m)

/-- Lateral drag `scale * 2 * usign * h / W * (5 * absu / (A * W))**(1/n)`. -/
noncomputable def lateral_drag (s : LateralIceStream) (u : ℕ → ℝ) (scale : ℝ) : ℕ → ℝ :=
  fun i => scale * 2 * usign (u i) * s.profile.h i / s.W *
    (5 * |u i| / (s.A * s.W)) ^ (1 / s.n)

/-- Driving stress `scale * rho_ice * g * h * alpha`. -/
noncomputable def Td (s : LateralIceStream) (scale : ℝ) : ℕ → ℝ :=
  fun i => scale * s.rho_ice * s.g * s.profile.h i * s.profile.alpha i

/-- The component dictionary returned by
`compute_pde_values(u, scale, return_components=True)`: the unmixed
`membrane`, `basal`, `lateral` and `driving` arrays. -/
structure Components where
  membrane : ℕ → ℝ
  basal : ℕ → ℝ
  lateral : ℕ → ℝ
  driving : ℕ → ℝ

/-- The `return_components=True` branch of `compute_pde_values`. -/
noncomputable def compute_components (s : LateralIceStream) (u : ℕ → ℝ) (scale : ℝ) :
    Components :=
  { membrane := s.membrane u scale
    basal := s.basal_drag u scale
    lateral := s.lateral_drag u scale
    driving := s.Td scale }

/-- Contents of the PDE vector `self.F` after
`compute_pde_values(u, scale)` (non-decomposed path): the code combines
`membrane -= (basal_drag + lateral_drag)` and fills the interior with
`membrane + Td`, then the two boundary entries. Entries beyond `N + 1` do
not exist in the length-`N + 2` buffer and keep the preallocated value `0`. -/
noncomputable def Fvec (s : LateralIceStream) (u : ℕ → ℝ) (scale : ℝ) : ℕ → ℝ :=
  fun i =>
    if i < s.profile.N then
      s.membrane u scale i - (s.basal_drag u scale i + s.lateral_drag u scale i)
        + s.Td scale i
    else if i = s.profile.N then s.boundary_value_scale * s.Du u 0
    else if i = s.profile.N + 1 then s.boundary_value_scale * (s.Du u (s.profile.N - 1) - s.fs)
    else 0

/-- `compute_pde_values(u, scale)` (non-decomposed path) with the buffer heap
made explicit: the instance's buffer `self.F` (reference `fid`) is
overwritten, and `self.F.copy()` allocates a fresh array with the same
contents, whose reference is returned. -/
noncomputable def compute_pde_values (s : LateralIceStream) (fid : ℕ) (hp : VecHeap)
    (u : ℕ → ℝ) (scale : ℝ) : ℕ × VecHeap :=
  let F := s.Fvec u scale
  (hp.next,
   { next := hp.next + 1
     data := fun r => if r = fid then F else if r = hp.next then F else hp.data r })

/-- Diagonal basal-drag Jacobian term of `compute_jacobian`:
`scale * mu * usign * As * (Hf * usign) / m * (Hf * absu)**((1 - m) / m)`. -/
noncomputable def J_basal (s : LateralIceStream) (u : ℕ → ℝ) (scale : ℝ) : ℕ → ℝ :=
  fun i => scale * s.mu * usign (u i) * s.As * (s.Hf i * usign (u i)) / s.m *
    (s.Hf i * |u i|) ^ ((1 - s.m) / s.m)

/-- Diagonal lateral-drag Jacobian term of `compute_jacobian`:
`scale * usign * 10 * h * usign / (n * A * W**2) * (5 * absu / (A * W))**((1 - n) / n)`. -/
noncomputable def J_lateral (s : LateralIceStream) (u : ℕ → ℝ) (scale : ℝ) : ℕ → ℝ :=
  fun i => scale * usign (u i) * 10 * s.profile.h i * usign (u i) /
    (s.n * s.A * s.W ^ (2 : ℕ)) * (5 * |u i| / (s.A * s.W)) ^ ((1 - s.n) / s.n)

/-- Float-semantics evaluation of the same basal-drag Jacobian term, with the
numpy power modelled by `npPow` (so `0.0 ** p = +inf` for `p < 0`); used to
analyse the behaviour of `compute_jacobian` at zero velocity, where the real
base `Hf i * absu i` is exactly `0`. -/
noncomputable def J_basalF (s : LateralIceStream) (u : ℕ → ℝ) (scale : ℝ) : ℕ → EReal :=
  fun i => ((scale * s.mu * usign (u i) * s.As * (s.Hf i * usign (u i)) / s.m : ℝ) : EReal) *
    npPow (s.Hf i * |u i|) ((1 - s.m) / s.m)

/-- Contents of the Jacobian buffer `self.J` after `compute_jacobian(u, scale)`:
the membrane-stress rows `Jpde` with `J_basal` and `J_lateral` subtracted from
the diagonal (only rows `i < N` are touched by the fancy-index assignment),
then the two boundary rows. -/
noncomputable def Jmat (s : LateralIceStream) (u : ℕ → ℝ) (scale : ℝ) : ℕ → ℕ → ℝ :=
  let N := s.profile.N
  let D := s.profile.D
  let h := s.profile.h
  let Du := s.Du u
  let nuJ : ℕ → ℝ := fun i => 1.0 / (|Du i| ^ ((s.n - 1) / s.n) + s.nu_eps)
  let nu_hat : ℕ → ℝ :=
    fun i => (s.n - 1) / s.n * Du i / (|Du i| ^ ((s.n + 1) / s.n) + s.nu_eps)
  let Gp := gradient_product (fun i => -1.0 * nuJ i ^ (2 : ℕ) * nu_hat i) D
  let J1 := gradient_product (fun i => h i * Du i) Gp
  let J2 := gradient_product (fun i => h i * nuJ i) D
  let Jpde : ℕ → ℕ → ℝ :=
    fun i j => scale * matMul N s.K (fun a b => J1 a b + J2 a b) i j
  fun i j =>
    if i < N then
      Jpde i j - (if i = j then s.J_basal u scale i + s.J_lateral u scale i else 0)
    else if i = N then s.boundary_value_scale * D 0 j
    else if i = N + 1 then s.boundary_value_scale * D (N - 1) j
    else 0

/-- `compute_jacobian(u, scale)` with the buffer heap made explicit: the
instance's buffer `self.J` (reference `jid`) is overwritten in place and then
returned by direct reference, with no copy and no fresh allocation. -/
noncomputable def compute_jacobian (s : LateralIceStream) (jid : ℕ) (mh : MatHeap)
    (u : ℕ → ℝ) (scale : ℝ) : ℕ × MatHeap :=
  let J := s.Jmat u scale
  (jid, { next := mh.next, data := fun r => if r = jid then J else mh.data r })

/-- The instance obtained from `s` by changing only the configuration constant
`drag_eps`. -/
noncomputable def setDragEps (s : LateralIceStream) (e : ℝ) : LateralIceStream :=
  { s with drag_eps := e }

end LateralIceStream

/-! Helper lemmas. -/

lemma usign_mul_self (x : ℝ) : usign x * usign x = 1 := by
  unfold usign
  split_ifs <;> norm_num

lemma usign_neg (x : ℝ) (hx : x ≠ 0) : usign (-x) = -usign x := by
  unfold usign
  rcases lt_trichotomy x 0 with h | h | h
  · rw [if_neg (by linarith : ¬(-x < 0)), if_pos h]
    norm_num
  · exact absurd h hx
  · rw [if_pos (by linarith : -x < 0), if_neg (by linarith : ¬(x < 0))]

lemma usign_zero : usign (0 : ℝ) = 1 := by
  unfold usign
  rw [if_neg (lt_irrefl 0)]

/-- Contents of the vector returned by `IceStream.compute_pde_values`: the
fresh copy holds exactly the values written into the `self.F` buffer. -/
lemma IceStream.returned_residual_unconfined (s : IceStream) (fid : ℕ) (hp : VecHeap)
    (u : ℕ → ℝ) (scale : ℝ) :
    (s.compute_pde_values fid hp u scale).2.data (s.compute_pde_values fid hp u scale).1
      = s.Fvec u scale := by
  show (if hp.next = fid then s.Fvec u scale
        else if hp.next = hp.next then s.Fvec u scale else hp.data hp.next) = s.Fvec u scale
  by_cases h : hp.next = fid
  · simp [h]
  · simp [h]

/-- Contents of the vector returned by `LateralIceStream.compute_pde_values`. -/
lemma LateralIceStream.returned_residual_confined (s : LateralIceStream) (fid : ℕ) (hp : VecHeap)
    (u : ℕ → ℝ) (scale : ℝ) :
    (s.compute_pde_values fid hp u scale).2.data (s.compute_pde_values fid hp u scale).1
      = s.Fvec u scale := by
  show (if hp.next = fid then s.Fvec u scale
        else if hp.next = hp.next then s.Fvec u scale else hp.data hp.next) = s.Fvec u scale
  by_cases h : hp.next = fid
  · simp [h]
  · simp [h]

/-- Concrete profile used to instantiate theorems with hypotheses. -/
noncomputable def sampleProfile : Profile :=
  { N := 1
    D := fun _ _ => 1
    h := fun _ => 1000
    alpha := fun _ => 0.01
    depth := fun _ => 0
    rho_ice := 1
    rho_water := 1 }

/-- Concrete unconfined model instance built from `sampleProfile`. -/
noncomputable def sampleUnconfined : IceStream :=
  IceStream.init sampleProfile 0 1 600 3 1

/-- Concrete confined model instance built from `sampleProfile`. -/
noncomputable def sampleConfined : LateralIceStream :=
  LateralIceStream.init sampleProfile 0 1 3000 100 1 3 3

/-! Claim theorems. -/

/-- C3: for both models and every velocity vector `u`, the returned residual
vector has entry `N` equal to `boundary_value_scale * (D·u)[0]` and entry
`N + 1` equal to `boundary_value_scale * ((D·u)[N-1] - fs)`. -/
theorem residual_boundary_entries (s1 : IceStream) (s2 : LateralIceStream)
    (fid1 fid2 : ℕ) (hp1 hp2 : VecHeap) (u1 u2 : ℕ → ℝ) (sc1 sc2 : ℝ) :
    ((s1.compute_pde_values fid1 hp1 u1 sc1).2.data
        (s1.compute_pde_values fid1 hp1 u1 sc1).1 s1.profile.N
      = s1.boundary_value_scale * s1.Du u1 0
    ∧ (s1.compute_pde_values fid1 hp1 u1 sc1).2.data
        (s1.compute_pde_values fid1 hp1 u1 sc1).1 (s1.profile.N + 1)
      = s1.boundary_value_scale * (s1.Du u1 (s1.profile.N - 1) - s1.fs))
    ∧ ((s2.compute_pde_values fid2 hp2 u2 sc2).2.data
        (s2.compute_pde_values fid2 hp2 u2 sc2).1 s2.profile.N
      = s2.boundary_value_scale * s2.Du u2 0
    ∧ (s2.compute_pde_values fid2 hp2 u2 sc2).2.data
        (s2.compute_pde_values fid2 hp2 u2 sc2).1 (s2.profile.N + 1)
      = s2.boundary_value_scale * (s2.Du u2 (s2.profile.N - 1) - s2.fs)) := by
  rw [IceStream.returned_residual_unconfined, LateralIceStream.returned_residual_confined]
  refine ⟨⟨?_, ?_⟩, ?_, ?_⟩
  · simp only [IceStream.Fvec]
    rw [if_neg (lt_irrefl _)]
    simp
  · simp only [IceStream.Fvec]
    rw [if_neg (by omega), if_neg (by omega)]
    simp
  · simp only [LateralIceStream.Fvec]
    rw [if_neg (lt_irrefl _)]
    simp
  · simp only [LateralIceStream.Fvec]
    rw [if_neg (by omega), if_neg (by omega)]
    simp

/-- C9: for both models, `compute_jacobian` returns the instance's
preallocated Jacobian buffer by direct reference: two successive calls return
the identical reference, and after the second call the matrix returned by the
first holds the entries computed from the second call's input. -/
theorem jacobian_returns_buffer_reference (s1 : IceStream) (s2 : LateralIceStream)
    (jid1 jid2 : ℕ) (mh1 mh2 : MatHeap) (ua ub uc ud : ℕ → ℝ) (sa sb sc sd : ℝ) :
    ((s1.compute_jacobian jid1 mh1 ua sa).1
        = (s1.compute_jacobian jid1 (s1.compute_jacobian jid1 mh1 ua sa).2 ub sb).1
    ∧ (s1.compute_jacobian jid1 (s1.compute_jacobian jid1 mh1 ua sa).2 ub sb).2.data
        (s1.compute_jacobian jid1 mh1 ua sa).1 = s1.Jmat ub sb)
    ∧ ((s2.compute_jacobian jid2 mh2 uc sc).1
        = (s2.compute_jacobian jid2 (s2.compute_jacobian jid2 mh2 uc sc).2 ud sd).1
    ∧ (s2.compute_jacobian jid2 (s2.compute_jacobian jid2 mh2 uc sc).2 ud sd).2.data
        (s2.compute_jacobian jid2 mh2 uc sc).1 = s2.Jmat ud sd) := by
  refine ⟨⟨rfl, ?_⟩, rfl, ?_⟩
  · show (if jid1 = jid1 then s1.Jmat ub sb else _) = s1.Jmat ub sb
    rw [if_pos rfl]
  · show (if jid2 = jid2 then s2.Jmat ud sd else _) = s2.Jmat ud sd
    rw [if_pos rfl]

/-- C10: the configuration constant `drag_eps` is assigned at construction but
never read: the residual contents, the Jacobian contents, the decomposed
component mapping, and the full buffer-passing calls are identical for two
instances that differ only in `drag_eps`. -/
theorem drag_eps_unused (s : LateralIceStream) (e : ℝ) (fid jid : ℕ)
    (hp : VecHeap) (mh : MatHeap) (u : ℕ → ℝ) (scale : ℝ) :
    (s.setDragEps e).Fvec u scale = s.Fvec u scale
    ∧ (s.setDragEps e).Jmat u scale = s.Jmat u scale
    ∧ (s.setDragEps e).compute_components u scale = s.compute_components u scale
    ∧ (s.setDragEps e).compute_pde_values fid hp u scale
        = s.compute_pde_values fid hp u scale
    ∧ (s.setDragEps e).compute_jacobian jid mh u scale
        = s.compute_jacobian jid mh u scale :=
  ⟨rfl, rfl, rfl, rfl, rfl⟩

/-- C8: for both models, `compute_pde_values` returns an independent copy of
the internal residual buffer: the returned reference differs from the buffer
reference, two successive calls return distinct references, and the entries
of the first returned vector are unchanged by the second call. -/
theorem residual_returns_independent_copy (s1 : IceStream) (s2 : LateralIceStream)
    (fid1 fid2 : ℕ) (hp1 hp2 : VecHeap) (ua ub uc ud : ℕ → ℝ) (sa sb sc sd : ℝ)
    (hf1 : fid1 < hp1.next) (hf2 : fid2 < hp2.next) :
    ((s1.compute_pde_values fid1 hp1 ua sa).1 ≠ fid1
    ∧ (s1.compute_pde_values fid1 (s1.compute_pde_values fid1 hp1 ua sa).2 ub sb).1
        ≠ (s1.compute_pde_values fid1 hp1 ua sa).1
    ∧ (s1.compute_pde_values fid1 (s1.compute_pde_values fid1 hp1 ua sa).2 ub sb).2.data
        (s1.compute_pde_values fid1 hp1 ua sa).1
      = (s1.compute_pde_values fid1 hp1 ua sa).2.data (s1.compute_pde_values fid1 hp1 ua sa).1)
    ∧ ((s2.compute_pde_values fid2 hp2 uc sc).1 ≠ fid2
    ∧ (s2.compute_pde_values fid2 (s2.compute_pde_values fid2 hp2 uc sc).2 ud sd).1
        ≠ (s2.compute_pde_values fid2 hp2 uc sc).1
    ∧ (s2.compute_pde_values fid2 (s2.compute_pde_values fid2 hp2 uc sc).2 ud sd).2.data
        (s2.compute_pde_values fid2 hp2 uc sc).1
      = (s2.compute_pde_values fid2 hp2 uc sc).2.data (s2.compute_pde_values fid2 hp2 uc sc).1) := by
  refine ⟨⟨ne_of_gt hf1, ?_, ?_⟩, ne_of_gt hf2, ?_, ?_⟩
  · show hp1.next + 1 ≠ hp1.next
    omega
  · show (if hp1.next = fid1 then s1.Fvec ub sb
      else if hp1.next = hp1.next + 1 then s1.Fvec ub sb
      else (s1.compute_pde_values fid1 hp1 ua sa).2.data hp1.next)
      = (s1.compute_pde_values fid1 hp1 ua sa).2.data hp1.next
    rw [if_neg (ne_of_gt hf1), if_neg (by omega)]
  · show hp2.next + 1 ≠ hp2.next
    omega
  · show (if hp2.next = fid2 then s2.Fvec ud sd
      else if hp2.next = hp2.next + 1 then s2.Fvec ud sd
      else (s2.compute_pde_values fid2 hp2 uc sc).2.data hp2.next)
      = (s2.compute_pde_values fid2 hp2 uc sc).2.data hp2.next
    rw [if_neg (ne_of_gt hf2), if_neg (by omega)]

/-- Witness for C8 at a concrete instance and heap. -/
theorem residual_returns_independent_copy_witness :
    (0 < (VecHeap.mk 1 fun _ _ => 0).next ∧ 0 < (VecHeap.mk 1 fun _ _ => 0).next)
    ∧ (((sampleUnconfined.compute_pde_values 0 (VecHeap.mk 1 fun _ _ => 0)
          (fun _ => 1) 1).1 ≠ 0
    ∧ (sampleUnconfined.compute_pde_values 0
        (sampleUnconfined.compute_pde_values 0 (VecHeap.mk 1 fun _ _ => 0)
          (fun _ => 1) 1).2 (fun _ => 2) 1).1
        ≠ (sampleUnconfined.compute_pde_values 0 (VecHeap.mk 1 fun _ _ => 0)
          (fun _ => 1) 1).1
    ∧ (sampleUnconfined.compute_pde_values 0
        (sampleUnconfined.compute_pde_values 0 (VecHeap.mk 1 fun _ _ => 0)
          (fun _ => 1) 1).2 (fun _ => 2) 1).2.data
        (sampleUnconfined.compute_pde_values 0 (VecHeap.mk 1 fun _ _ => 0)
          (fun _ => 1) 1).1
      = (sampleUnconfined.compute_pde_values 0 (VecHeap.mk 1 fun _ _ => 0)
          (fun _ => 1) 1).2.data
        (sampleUnconfined.compute_pde_values 0 (VecHeap.mk 1 fun _ _ => 0)
          (fun _ => 1) 1).1)
    ∧ ((sampleConfined.compute_pde_values 0 (VecHeap.mk 1 fun _ _ => 0)
          (fun _ => 1) 1).1 ≠ 0
    ∧ (sampleConfined.compute_pde_values 0
        (sampleConfined.compute_pde_values 0 (VecHeap.mk 1 fun _ _ => 0)
          (fun _ => 1) 1).2 (fun _ => 2) 1).1
        ≠ (sampleConfined.compute_pde_values 0 (VecHeap.mk 1 fun _ _ => 0)
          (fun _ => 1) 1).1
    ∧ (sampleConfined.compute_pde_values 0
        (sampleConfined.compute_pde_values 0 (VecHeap.mk 1 fun _ _ => 0)
          (fun _ => 1) 1).2 (fun _ => 2) 1).2.data
        (sampleConfined.compute_pde_values 0 (VecHeap.mk 1 fun _ _ => 0)
          (fun _ => 1) 1).1
      = (sampleConfined.compute_pde_values 0 (VecHeap.mk 1 fun _ _ => 0)
          (fun _ => 1) 1).2.data
        (sampleConfined.compute_pde_values 0 (VecHeap.mk 1 fun _ _ => 0)
          (fun _ => 1) 1).1)) :=
  ⟨⟨Nat.zero_lt_one, Nat.zero_lt_one⟩,
    residual_returns_independent_copy sampleUnconfined sampleConfined 0 0
      (VecHeap.mk 1 fun _ _ => 0) (VecHeap.mk 1 fun _ _ => 0)
      (fun _ => 1) (fun _ => 2) (fun _ => 1) (fun _ => 2) 1 1 1 1
      Nat.zero_lt_one Nat.zero_lt_one⟩

/-- C2: for the confined model, recombining the decomposed components as
`membrane - basal - lateral + driving` yields exactly the first `N` entries of
the vector returned by the non-decomposed residual call on the same input. -/
theorem decomposed_components_recombine (s : LateralIceStream) (fid : ℕ)
    (hp : VecHeap) (u : ℕ → ℝ) (scale : ℝ) (i : ℕ) (hi : i < s.profile.N) :
    (s.compute_components u scale).membrane i - (s.compute_components u scale).basal i
      - (s.compute_components u scale).lateral i + (s.compute_components u scale).driving i
    = (s.compute_pde_values fid hp u scale).2.data
        (s.compute_pde_values fid hp u scale).1 i := by
  rw [LateralIceStream.returned_residual_confined]
  simp only [LateralIceStream.compute_components, LateralIceStream.Fvec, if_pos hi]
  ring

/-- Witness for C2 at a concrete instance, input and interior index. -/
theorem decomposed_components_recombine_witness :
    0 < sampleConfined.profile.N
    ∧ (sampleConfined.compute_components (fun _ => 1) 1).membrane 0
        - (sampleConfined.compute_components (fun _ => 1) 1).basal 0
        - (sampleConfined.compute_components (fun _ => 1) 1).lateral 0
        + (sampleConfined.compute_components (fun _ => 1) 1).driving 0
      = (sampleConfined.compute_pde_values 0 (VecHeap.mk 1 fun _ _ => 0)
          (fun _ => 1) 1).2.data
          (sampleConfined.compute_pde_values 0 (VecHeap.mk 1 fun _ _ => 0)
            (fun _ => 1) 1).1 0 :=
  ⟨Nat.zero_lt_one,
    decomposed_components_recombine sampleConfined 0 (VecHeap.mk 1 fun _ _ => 0)
      (fun _ => 1) 1 0 Nat.zero_lt_one⟩

/-- C4: the effective flotation thickness stored at construction satisfies
`Hf[i] >= 0.01` at every node, and wherever the raw value
`h - (rho_water / rho_ice) * depth` is negative the stored value is exactly
`0.01`; `Hf` is a constructor-set field that no operation modifies. -/
theorem flotation_floor_invariant (profile : Profile) (cf A W As mu n m : ℝ) (i : ℕ) :
    0.01 ≤ (LateralIceStream.init profile cf A W As mu n m).Hf i
    ∧ (profile.h i - profile.rho_water / profile.rho_ice * profile.depth i < 0 →
        (LateralIceStream.init profile cf A W As mu n m).Hf i = 0.01) := by
  simp only [LateralIceStream.init]
  by_cases h : profile.h i - profile.rho_water / profile.rho_ice * profile.depth i < 0.01
  · rw [if_pos h]
    exact ⟨le_refl _, fun _ => rfl⟩
  · rw [if_neg h]
    exact ⟨by linarith [not_lt.mp h], fun h0 => absurd (by linarith : profile.h i -
      profile.rho_water / profile.rho_ice * profile.depth i < 0.01) h⟩

/-- Witness for C4 at a profile whose raw flotation value is negative. -/
theorem flotation_floor_invariant_witness :
    0.01 ≤ (LateralIceStream.init (Profile.mk 1 (fun _ _ => 0) (fun _ => 0)
        (fun _ => 0) (fun _ => 1) 1 1) 0 1 1 1 1 3 3).Hf 0
    ∧ ((Profile.mk 1 (fun _ _ => 0) (fun _ => 0) (fun _ => 0) (fun _ => 1)
          1 1 : Profile).h 0
        - (Profile.mk 1 (fun _ _ => 0) (fun _ => 0) (fun _ => 0) (fun _ => 1)
          1 1 : Profile).rho_water
          / (Profile.mk 1 (fun _ _ => 0) (fun _ => 0) (fun _ => 0) (fun _ => 1)
          1 1 : Profile).rho_ice
          * (Profile.mk 1 (fun _ _ => 0) (fun _ => 0) (fun _ => 0) (fun _ => 1)
          1 1 : Profile).depth 0 < 0)
    ∧ (LateralIceStream.init (Profile.mk 1 (fun _ _ => 0) (fun _ => 0)
        (fun _ => 0) (fun _ => 1) 1 1) 0 1 1 1 1 3 3).Hf 0 = 0.01 := by
  have hneg : (Profile.mk 1 (fun _ _ => 0) (fun _ => 0) (fun _ => 0) (fun _ => 1)
      1 1 : Profile).h 0
      - (Profile.mk 1 (fun _ _ => 0) (fun _ => 0) (fun _ => 0) (fun _ => 1)
      1 1 : Profile).rho_water
        / (Profile.mk 1 (fun _ _ => 0) (fun _ => 0) (fun _ => 0) (fun _ => 1)
      1 1 : Profile).rho_ice
        * (Profile.mk 1 (fun _ _ => 0) (fun _ => 0) (fun _ => 0) (fun _ => 1)
      1 1 : Profile).depth 0 < 0 := by
    show (0 : ℝ) - 1 / 1 * 1 < 0
    norm_num
  exact ⟨(flotation_floor_invariant (Profile.mk 1 (fun _ _ => 0) (fun _ => 0)
      (fun _ => 0) (fun _ => 1) 1 1) 0 1 1 1 1 3 3 0).1, hneg,
    (flotation_floor_invariant (Profile.mk 1 (fun _ _ => 0) (fun _ => 0)
      (fun _ => 0) (fun _ => 1) 1 1) 0 1 1 1 1 3 3 0).2 hneg⟩

/-- C5: for both models, for every `nu_eps > 0`, `A > 0` and every velocity
vector (including ones whose strain rate `Du` vanishes), the viscosity
denominator `|Du|^((n-1)/n) + nu_eps` is strictly positive (the epsilon is
added to the denominator magnitude, so the division is guarded) and the
effective viscosity `nu` is strictly positive, hence finite as a real. -/
theorem viscosity_finite_positive (s1 : IceStream) (s2 : LateralIceStream)
    (u1 u2 : ℕ → ℝ) (i1 i2 : ℕ) (h1e : 0 < s1.nu_eps) (h1A : 0 < s1.A)
    (h2e : 0 < s2.nu_eps) (h2A : 0 < s2.A) :
    (0 < |s1.Du u1 i1| ^ ((s1.n - 1) / s1.n) + s1.nu_eps ∧ 0 < s1.nu u1 i1)
    ∧ (0 < |s2.Du u2 i2| ^ ((s2.n - 1) / s2.n) + s2.nu_eps ∧ 0 < s2.nu u2 i2) := by
  have d1 : 0 < |s1.Du u1 i1| ^ ((s1.n - 1) / s1.n) + s1.nu_eps :=
    add_pos_of_nonneg_of_pos (Real.rpow_nonneg (abs_nonneg _) _) h1e
  have d2 : 0 < |s2.Du u2 i2| ^ ((s2.n - 1) / s2.n) + s2.nu_eps :=
    add_pos_of_nonneg_of_pos (Real.rpow_nonneg (abs_nonneg _) _) h2e
  exact ⟨⟨d1, div_pos (Real.rpow_pos_of_pos h1A _) d1⟩,
    d2, div_pos (Real.rpow_pos_of_pos h2A _) d2⟩

/-- Witness for C5 at the concrete instances with zero velocity (so the
strain rate is identically zero). -/
theorem viscosity_finite_positive_witness :
    (0 < sampleUnconfined.nu_eps ∧ 0 < sampleUnconfined.A
      ∧ 0 < sampleConfined.nu_eps ∧ 0 < sampleConfined.A)
    ∧ ((0 < |sampleUnconfined.Du (fun _ => 0) 0| ^
          ((sampleUnconfined.n - 1) / sampleUnconfined.n) + sampleUnconfined.nu_eps
        ∧ 0 < sampleUnconfined.nu (fun _ => 0) 0)
      ∧ (0 < |sampleConfined.Du (fun _ => 0) 0| ^
          ((sampleConfined.n - 1) / sampleConfined.n) + sampleConfined.nu_eps
        ∧ 0 < sampleConfined.nu (fun _ => 0) 0)) := by
  have h1e : 0 < sampleUnconfined.nu_eps := by
    show (0 : ℝ) < 1.0e-8
    norm_num
  have h1A : 0 < sampleUnconfined.A := by
    show (0 : ℝ) < 1
    norm_num
  have h2e : 0 < sampleConfined.nu_eps := by
    show (0 : ℝ) < 1.0e-8
    norm_num
  have h2A : 0 < sampleConfined.A := by
    show (0 : ℝ) < 1
    norm_num
  exact ⟨⟨h1e, h1A, h2e, h2A⟩,
    viscosity_finite_positive sampleUnconfined sampleConfined
      (fun _ => 0) (fun _ => 0) 0 0 h1e h1A h2e h2A⟩

/-- C7: for the confined model, the basal and lateral drag components are odd
functions of the velocity: negating `u` negates each drag entry-wise, because
the fractional power is taken of `abs_u` and the sign is reattached
multiplicatively. -/
theorem drag_odd_symmetry (s : LateralIceStream) (u : ℕ → ℝ) (scale : ℝ) (i : ℕ)
    (hm : s.m ≠ 0) (hn : s.n ≠ 0) :
    s.basal_drag (fun j => -u j) scale i = -s.basal_drag u scale i
    ∧ s.lateral_drag (fun j => -u j) scale i = -s.lateral_drag u scale i := by
  by_cases hu : u i = 0
  · constructor
    · simp only [LateralIceStream.basal_drag, hu, neg_zero, abs_zero, mul_zero,
        Real.zero_rpow (one_div_ne_zero hm)]
    · simp only [LateralIceStream.lateral_drag, hu, neg_zero, abs_zero, mul_zero,
        zero_div, Real.zero_rpow (one_div_ne_zero hn)]
  · constructor
    · simp only [LateralIceStream.basal_drag, usign_neg (u i) hu, abs_neg]
      ring
    · simp only [LateralIceStream.lateral_drag, usign_neg (u i) hu, abs_neg]
      ring

/-- Witness for C7 at the concrete confined instance. -/
theorem drag_odd_symmetry_witness :
    (sampleConfined.m ≠ 0 ∧ sampleConfined.n ≠ 0)
    ∧ (sampleConfined.basal_drag (fun j => -(fun _ => (1 : ℝ)) j) 1 0
        = -sampleConfined.basal_drag (fun _ => 1) 1 0
      ∧ sampleConfined.lateral_drag (fun j => -(fun _ => (1 : ℝ)) j) 1 0
        = -sampleConfined.lateral_drag (fun _ => 1) 1 0) := by
  have hm : sampleConfined.m ≠ 0 := by
    show (3 : ℝ) ≠ 0
    norm_num
  have hn : sampleConfined.n ≠ 0 := by
    show (3 : ℝ) ≠ 0
    norm_num
  exact ⟨⟨hm, hn⟩, drag_odd_symmetry sampleConfined (fun _ => 1) 1 0 hm hn⟩

/-- C1: for the confined model, the basal-drag diagonal Jacobian term of
`compute_jacobian` equals, entry-wise,
`scale * mu * As * Hf[i]^(1/m) * (1/m) * abs_u[i]^((1-m)/m)` (the power-rule
derivative of the basal drag term), and it is non-negative at every node
where `u[i] /= 0` (the sign factor squares away). -/
theorem basal_jacobian_diagonal_value (s : LateralIceStream) (u : ℕ → ℝ)
    (scale : ℝ) (i : ℕ) (hm : 0 < s.m) (hHf : 0 < s.Hf i) (hscale : 0 ≤ scale)
    (hmu : 0 ≤ s.mu) (hAs : 0 ≤ s.As) :
    s.J_basal u scale i
      = scale * s.mu * s.As * s.Hf i ^ (1 / s.m) * (1 / s.m)
        * |u i| ^ ((1 - s.m) / s.m)
    ∧ (u i ≠ 0 → 0 ≤ s.J_basal u scale i) := by
  have hsq : usign (u i) * usign (u i) = 1 := usign_mul_self (u i)
  have hfloss : s.Hf i * s.Hf i ^ ((1 - s.m) / s.m) = s.Hf i ^ (1 / s.m) := by
    have h1 : (1 : ℝ) + (1 - s.m) / s.m = 1 / s.m := by
      field_simp
    calc s.Hf i * s.Hf i ^ ((1 - s.m) / s.m)
        = s.Hf i ^ (1 : ℝ) * s.Hf i ^ ((1 - s.m) / s.m) := by rw [Real.rpow_one]
      _ = s.Hf i ^ ((1 : ℝ) + (1 - s.m) / s.m) := (Real.rpow_add hHf 1 _).symm
      _ = s.Hf i ^ (1 / s.m) := by rw [h1]
  have hmain : s.J_basal u scale i
      = scale * s.mu * s.As * s.Hf i ^ (1 / s.m) * (1 / s.m)
        * |u i| ^ ((1 - s.m) / s.m) := by
    show scale * s.mu * usign (u i) * s.As * (s.Hf i * usign (u i)) / s.m
        * (s.Hf i * |u i|) ^ ((1 - s.m) / s.m)
      = scale * s.mu * s.As * s.Hf i ^ (1 / s.m) * (1 / s.m)
        * |u i| ^ ((1 - s.m) / s.m)
    rw [Real.mul_rpow hHf.le (abs_nonneg (u i))]
    calc scale * s.mu * usign (u i) * s.As * (s.Hf i * usign (u i)) / s.m
          * (s.Hf i ^ ((1 - s.m) / s.m) * |u i| ^ ((1 - s.m) / s.m))
        = (usign (u i) * usign (u i)) * (scale * s.mu * s.As
            * (s.Hf i * s.Hf i ^ ((1 - s.m) / s.m)) * (1 / s.m)
            * |u i| ^ ((1 - s.m) / s.m)) := by ring
      _ = scale * s.mu * s.As * s.Hf i ^ (1 / s.m) * (1 / s.m)
            * |u i| ^ ((1 - s.m) / s.m) := by rw [hsq, hfloss]; ring
  refine ⟨hmain, fun _ => ?_⟩
  rw [hmain]
  have h1 : (0 : ℝ) ≤ s.Hf i ^ (1 / s.m) := Real.rpow_nonneg hHf.le _
  have h2 : (0 : ℝ) ≤ |u i| ^ ((1 - s.m) / s.m) := Real.rpow_nonneg (abs_nonneg _) _
  have h3 : (0 : ℝ) ≤ 1 / s.m := by positivity
  exact mul_nonneg (mul_nonneg (mul_nonneg (mul_nonneg (mul_nonneg hscale hmu)
    hAs) h1) h3) h2

/-- Witness for C1 at the concrete confined instance (`m = 3`, `Hf 0 = 1000`)
and a nowhere-zero velocity. -/
theorem basal_jacobian_diagonal_value_witness :
    (0 < sampleConfined.m ∧ 0 < sampleConfined.Hf 0 ∧ (0 : ℝ) ≤ 1
      ∧ 0 ≤ sampleConfined.mu ∧ 0 ≤ sampleConfined.As)
    ∧ (sampleConfined.J_basal (fun _ => 1) 1 0
        = 1 * sampleConfined.mu * sampleConfined.As
          * sampleConfined.Hf 0 ^ (1 / sampleConfined.m) * (1 / sampleConfined.m)
          * |(1 : ℝ)| ^ ((1 - sampleConfined.m) / sampleConfined.m)
      ∧ ((1 : ℝ) ≠ 0 → 0 ≤ sampleConfined.J_basal (fun _ => 1) 1 0)) := by
  have hm : 0 < sampleConfined.m := by
    show (0 : ℝ) < 3
    norm_num
  have hHf : 0 < sampleConfined.Hf 0 := by
    show (0 : ℝ) < if (1000 : ℝ) - 1 / 1 * 0 < 0.01 then 0.01
      else (1000 : ℝ) - 1 / 1 * 0
    norm_num
  have hmu : 0 ≤ sampleConfined.mu := by
    show (0 : ℝ) ≤ 1
    norm_num
  have hAs : 0 ≤ sampleConfined.As := by
    show (0 : ℝ) ≤ 100
    norm_num
  exact ⟨⟨hm, hHf, zero_le_one, hmu, hAs⟩,
    basal_jacobian_diagonal_value sampleConfined (fun _ => 1) 1 0 hm hHf
      zero_le_one hmu hAs⟩

/-- C6: for the confined model with sliding exponent `m > 1`, the basal-drag
Jacobian term of `compute_jacobian` is singular at zero velocity: under the
floating-point semantics of the numpy power (`0.0 ** p = +inf` for `p < 0`),
the diagonal basal contribution at a node with `u[i] = 0` is non-finite,
because the exponent `(1-m)/m` is negative and no epsilon regularization is
applied to `abs_u` in this term. -/
theorem basal_jacobian_singular_at_zero_velocity (s : LateralIceStream)
    (u : ℕ → ℝ) (scale : ℝ) (i : ℕ) (hm : 1 < s.m) (hscale : 0 < scale)
    (hmu : 0 < s.mu) (hAs : 0 < s.As) (hHf : 0 < s.Hf i) (hu : u i = 0) :
    s.J_basalF u scale i = ⊤ := by
  have hm0 : (0 : ℝ) < s.m := by linarith
  have hE : (1 - s.m) / s.m < 0 :=
    div_neg_of_neg_of_pos (by linarith) hm0
  show ((scale * s.mu * usign (u i) * s.As * (s.Hf i * usign (u i)) / s.m : ℝ) : EReal)
      * npPow (s.Hf i * |u i|) ((1 - s.m) / s.m) = ⊤
  rw [hu, usign_zero, abs_zero, mul_zero]
  unfold npPow
  rw [if_pos rfl, if_pos hE]
  have hc : (0 : ℝ) < scale * s.mu * 1 * s.As * (s.Hf i * 1) / s.m := by positivity
  exact EReal.coe_mul_top_of_pos hc

/-- Witness for C6 at the concrete confined instance with zero velocity. -/
theorem basal_jacobian_singular_at_zero_velocity_witness :
    (1 < sampleConfined.m ∧ (0 : ℝ) < 1 ∧ 0 < sampleConfined.mu
      ∧ 0 < sampleConfined.As ∧ 0 < sampleConfined.Hf 0
      ∧ (fun _ : ℕ => (0 : ℝ)) 0 = 0)
    ∧ sampleConfined.J_basalF (fun _ => 0) 1 0 = ⊤ := by
  have hm : 1 < sampleConfined.m := by
    show (1 : ℝ) < 3
    norm_num
  have hmu : 0 < sampleConfined.mu := by
    show (0 : ℝ) < 1
    norm_num
  have hAs : 0 < sampleConfined.As := by
    show (0 : ℝ) < 100
    norm_num
  have hHf : 0 < sampleConfined.Hf 0 := by
    show (0 : ℝ) < if (1000 : ℝ) - 1 / 1 * 0 < 0.01 then 0.01
      else (1000 : ℝ) - 1 / 1 * 0
    norm_num
  exact ⟨⟨hm, one_pos, hmu, hAs, hHf, rfl⟩,
    basal_jacobian_singular_at_zero_velocity sampleConfined (fun _ => 0) 1 0
      hm one_pos hmu hAs hHf rfl⟩
